import Mathlib

/-!
Verification of the entity-reconciliation and relational-ingestion engine of
`database.py` (class `DatabaseInitialiser`).  The Python functions are shallowly
embedded as executable Lean definitions; theorems below settle the frozen
claims about them.

Conventions of the embedding:
* CSV fields are strings; a raw player row keeps its six string fields.
* A roster candidate, as stored in `_name_ids`, is the triple
  `(playerID, short_name, long_name) : Nat × String × String`.
* Python dictionaries preserve insertion order; they are embedded as
  association lists with in-place update and append-at-end insertion.
* `nltk.word_tokenize` is an external library call; following the spec (§4.4)
  it is modelled as whitespace tokenization (full stops are removed by the
  code itself before tokenizing).
* `jellyfish.levenshtein_distance` is an external library call computing the
  standard unit-cost Levenshtein distance; it is embedded as the textbook
  dynamic-programming recurrence (`lev`).
-/

namespace PLIngest

/-- Roster candidate as held in `_name_ids`: (playerID, short name, long name). -/
abbrev Cand := Nat × String × String

/-! ## Raw player rows (CSV fields, all strings) -/

/-- Raw player row: short name, long name, position, rating, club name, season
(`player[0] .. player[5]` in `database.py`). -/
structure PlayerRow where
  shortName : String
  longName : String
  position : String
  rating : String
  club : String
  season : String
deriving DecidableEq, Repr

/-! ## `collectClubs` (database.py lines 76-87) -/

/-- Append `c` to `cs` unless already present — the effect of
`self._existing_clubs[season].append(club_name)` guarded by
`not (club_name in self._existing_clubs[season])`. -/
def appendNew (cs : List String) (c : String) : List String :=
  if c ∈ cs then cs else cs ++ [c]

/-- One step of `collectClubs` on the ordered dictionary `_existing_clubs`,
embedded as an association list: update the entry for `s` in place, or append
a fresh `(s, [c])` entry at the end (Python dict insertion order). -/
def updateClubs : List (String × List String) → String → String → List (String × List String)
  | [], s, c => [(s, [c])]
  | (s', cs) :: rest, s, c =>
      if s' = s then (s', appendNew cs c) :: rest
      else (s', cs) :: updateClubs rest s c

/-- The `collectClubs` pass over all raw player rows (lines 81-87): builds the
season → list-of-distinct-club-names dictionary. -/
def collectClubs (rows : List PlayerRow) : List (String × List String) :=
  rows.foldl (fun acc p => updateClubs acc p.season p.club) []

/-- Distinct elements in first-seen order; the specification-side rendering of
"the ordered set of distinct club names seen in that season, preserving
first-seen order" (spec §4.1). -/
def firstSeenDistinct (cs : List String) : List String :=
  cs.foldl appendNew []

/-! ## `assignClubIDs` (lines 89-99) and the key part of `insertPlayers` (lines 231-249) -/

/-- Inner loop of `assignClubIDs`: keys the clubs of one season starting at `cur`. -/
def assignSeason (s : String) (cur : Nat) : List String → List ((String × String) × Nat)
  | [] => []
  | c :: cs => ((s, c), cur) :: assignSeason s (cur + 1) cs

/-- Outer loop of `assignClubIDs`: walks the season → clubs dictionary in
iteration order, threading the counter `current_id`. -/
def assignClubIDsFrom (cur : Nat) : List (String × List String) → List ((String × String) × Nat)
  | [] => []
  | (s, cs) :: rest => assignSeason s cur cs ++ assignClubIDsFrom (cur + cs.length) rest

/-- `assignClubIDs` (lines 89-99): `current_id` starts at 1 and increases by one
per club, over seasons in dictionary order and clubs in list order. -/
def assignClubIDs (m : List (String × List String)) : List ((String × String) × Nat) :=
  assignClubIDsFrom 1 m

/-- The (season, club) pairs of the `_existing_clubs` dictionary in the
iteration order of the `assignClubIDs` double loop. -/
def flattenClubs (m : List (String × List String)) : List (String × String) :=
  m.flatMap (fun p => p.2.map (fun c => (p.1, c)))

/-- The key-assignment loop of `insertPlayers` (lines 235-248): `player_id`
starts at `cur` and increases by one per raw row, in encounter order. -/
def insertPlayersFrom (cur : Nat) : List PlayerRow → List (Nat × PlayerRow)
  | [] => []
  | r :: rs => (cur, r) :: insertPlayersFrom (cur + 1) rs

/-- `insertPlayers`' surrogate-key assignment: ids from 1 in raw-row order. -/
def insertPlayersKeyed (rows : List PlayerRow) : List (Nat × PlayerRow) :=
  insertPlayersFrom 1 rows

/-! ## Containment pass of `insertLineups` (lines 319-333)

The Python test is `if h_player in home_id` where `home_id` is the tuple
`(playerID, shortname, longname)`; tuple membership in Python is equality with
one of the components, and a string never equals the integer id, so the test is
exact equality with the short or the long name. -/

/-- The Python membership test `h_player in (id, shortname, longname)`. -/
def containsName (n : String) (c : Cand) : Bool :=
  n == c.2.1 || n == c.2.2

/-- The containment loop of `insertLineups`.  `names` is the (original) list of
lineup names the `zip` iterates over, `pool` the current candidate list
(`home_team_ids` / `away_team_ids`), `leftover` the current value of the
re-bound `home_lineup` / `away_lineup` variable.  Returns the appended values,
the final leftover names, and the final candidate pool.  Note that the Python
`zip` iterator holds the original list objects, so re-binding
`home_lineup`/`away_lineup` to a filtered copy does not shorten the iteration;
`names` is therefore consumed element by element while `leftover` is filtered. -/
def contGo : List String → List Cand → List String → List Nat × List String × List Cand
  | [], pool, leftover => ([], leftover, pool)
  | n :: ns, pool, leftover =>
      match pool.find? (fun c => containsName n c) with
      | some c =>
          let r := contGo ns (pool.filter (fun c' => c' != c)) (leftover.filter (fun x => x != n))
          (c.1 :: r.1, r.2)
      | none => contGo ns pool leftover

/-! ## Bigram similarity pass: `generateBigrams` (386-399) and `compareBigrams` (401-425) -/

/-- Whitespace tokenizer (model of the external `nltk.word_tokenize` applied to
a name whose full stops were already removed; spec §4.4: "tokenize the lineup
name on whitespace"). -/
def tokGo : List Char → List Char → List (List Char)
  | [], acc => [acc.reverse]
  | ch :: cs, acc => if ch = ' ' then acc.reverse :: tokGo cs [] else tokGo cs (ch :: acc)

/-- `generateBigrams` (lines 386-399): strip full stops, tokenize, drop
single-character tokens (initials), and concatenate the per-token lists of
adjacent-character bigrams. -/
def generateBigrams (player : String) : List (Char × Char) :=
  let formatted := player.data.filter (fun ch => ch != '.')
  let significant := (tokGo formatted []).filter (fun t => t.length > 1)
  significant.flatMap (fun t => t.zip (t.drop 1))

/-- The count `len([bigram for bigram in cand if bigram in player_bigram])`
(lines 416-417). -/
def commonBigrams (cand pb : List (Char × Char)) : Nat :=
  (cand.filter (fun b => pb.contains b)).length

/-- The update of `greatest_similarity` for one candidate (lines 418-421):
`cS`/`cL` are the common-bigram counts against the candidate's short and long
names, `id` its player key, `best` the running `(score, id)` pair. -/
def bigramStep (best : Nat × Nat) (cS cL id : Nat) : Nat × Nat :=
  if cS ≤ cL ∧ best.1 < cL then (cL, id)
  else if cL < cS ∧ best.1 < cS then (cS, id)
  else best

/-- The per-candidate score actually used by the update: the larger of the
short-name and long-name common-bigram counts. -/
def candScore (pb : List (Char × Char)) (c : Cand) : Nat :=
  max (commonBigrams (generateBigrams c.2.1) pb) (commonBigrams (generateBigrams c.2.2) pb)

/-- The inner candidate loop of `compareBigrams` (lines 412-421). -/
def selectGo (pb : List (Char × Char)) : List Cand → Nat × Nat → Nat × Nat
  | [], best => best
  | c :: cs, best =>
      selectGo pb cs
        (bigramStep best (commonBigrams (generateBigrams c.2.1) pb)
          (commonBigrams (generateBigrams c.2.2) pb) c.1)

/-- `compareBigrams` (lines 401-425): for each unresolved lineup name in order,
pick the id recorded by the candidate scan (the initial `(0, 0)` leaves id 0 —
the null sentinel — when no candidate scores positively), then drop every
candidate with the chosen id from the pool. -/
def compareBigrams : List String → List Cand → List Nat
  | [], _ => []
  | p :: ps, team =>
      let best := selectGo (generateBigrams p) team (0, 0)
      best.2 :: compareBigrams ps (team.filter (fun c => c.1 != best.2))

/-- The candidate pool seen by the `i`-th player processed by `compareBigrams`. -/
def poolAt : List String → List Cand → Nat → List Cand
  | _, team, 0 => team
  | [], team, _ + 1 => team
  | p :: ps, team, i + 1 =>
      poolAt ps (team.filter (fun c => c.1 != (selectGo (generateBigrams p) team (0, 0)).2)) i

/-- One side (home or away) of `insertLineups` (lines 316-341): the containment
pass over the 11 names, then — only when names are left over — the bigram
similarity pass appended after the containment values. -/
def sideValues (lineup : List String) (pool : List Cand) : List Nat :=
  let r := contGo lineup pool lineup
  if r.2.1.isEmpty then r.1 else r.1 ++ compareBigrams r.2.1 r.2.2

/-! ## Club resolver: `findClubLevenshtein` (366-384) and the lookup in `insertMatches` (279-286) -/

/-- Inner step of the Levenshtein row computation: `left` is the entry just
computed in the new row, the first list the remaining target characters, the
second the remaining entries of the previous row (`pj` its diagonal neighbour,
`pj1` the one above the new cell). -/
def levGo (a : Char) : Nat → List Char → List Nat → List Nat
  | left, b :: t, pj :: prev@(pj1 :: _) =>
      let cur := min (pj + (if a = b then 0 else 1)) (min (pj1 + 1) (left + 1))
      cur :: levGo a cur t prev
  | _, _, _ => []

/-- Unit-cost Levenshtein distance (the behaviour of the external
`jellyfish.levenshtein_distance`), by the standard dynamic programme. -/
def lev (s t : List Char) : Nat :=
  (s.foldl (fun prev a => (prev.headD 0 + 1) :: levGo a (prev.headD 0 + 1) t prev)
    (List.range (t.length + 1))).getLastD 0

/-- The scan of `findClubLevenshtein` (lines 375-380) over the `_club_ids`
dictionary in iteration order.  The running best is `none` for the initial
`(inf, int, str)` triple and otherwise `(distance, id, clubname)`; a
same-season entry replaces it exactly when its distance is strictly smaller
(the initial infinity is beaten by any entry). -/
def levScan (season club : String) (tbl : List ((String × String) × Nat)) :
    Option (Nat × Nat × String) :=
  tbl.foldl
    (fun best e =>
      if e.1.1 = season then
        let d := lev e.1.2.data club.data
        match best with
        | none => some (d, e.2, e.1.2)
        | some b => if d < b.1 then some (d, e.2, e.1.2) else some b
      else best)
    none

/-- `findClubLevenshtein` with `find_id=True`: the id of the most similar
same-season club.  `none` models the degenerate Python return of the builtin
`int` type object when the season has no entry at all. -/
def findClubLevenshteinID (season club : String) (tbl : List ((String × String) × Nat)) :
    Option Nat :=
  (levScan season club tbl).map (fun b => b.2.1)

/-- `findClubLevenshtein` with `find_id=False`: the most similar club name. -/
def findClubLevenshteinName (season club : String) (tbl : List ((String × String) × Nat)) :
    Option String :=
  (levScan season club tbl).map (fun b => b.2.2)

/-- The club lookup of `insertMatches` (lines 279-286): exact dictionary lookup
of `(season, club)`, and on `KeyError` the Levenshtein fallback. -/
def findClubID (season club : String) (tbl : List ((String × String) × Nat)) : Option Nat :=
  match tbl.lookup (season, club) with
  | some id => some id
  | none => findClubLevenshteinID season club tbl

/-- First element of a list attaining the minimum of `f`, specification-side
("minimum distance, ties broken by first-encountered order"). -/
def firstMinBy (f : α → Nat) : List α → Option α
  | [] => none
  | a :: l =>
      match firstMinBy f l with
      | none => some a
      | some b => if f a ≤ f b then some a else some b

/-! ## `dateToSeason` (lines 351-364) -/

/-- A parsed calendar date as produced by `datetime.strptime(...).date()`. -/
structure PyDate where
  year : Nat
  month : Nat
  day : Nat
deriving DecidableEq, Repr

/-- Python `datetime.date` comparison: lexicographic on (year, month, day). -/
def dateLt (a b : PyDate) : Bool :=
  a.year < b.year ||
    (a.year == b.year && (a.month < b.month || (a.month == b.month && a.day < b.day)))

/-- The eight season-end boundaries of `dateToSeason` (lines 357-359):
May 30 of 2013..2020 paired with the labels "2012/2013" .. "2019/2020". -/
def seasonBoundaries : List (PyDate × String) :=
  [(⟨2013, 5, 30⟩, "2012/2013"), (⟨2014, 5, 30⟩, "2013/2014"),
   (⟨2015, 5, 30⟩, "2014/2015"), (⟨2016, 5, 30⟩, "2015/2016"),
   (⟨2017, 5, 30⟩, "2016/2017"), (⟨2018, 5, 30⟩, "2017/2018"),
   (⟨2019, 5, 30⟩, "2018/2019"), (⟨2020, 5, 30⟩, "2019/2020")]

/-- `dateToSeason` (lines 361-364): the label of the first boundary strictly
after the date; `none` models the Python fall-through return of `None`. -/
def dateToSeason (d : PyDate) : Option String :=
  (seasonBoundaries.find? (fun b => dateLt d b.1)).map (fun b => b.2)

/-! ## Commit structure of `insertMatches` / `insertLineups` (lines 269-349) -/

/-- A persisted row relevant to one match unit. -/
inductive SchemaRow where
  | matchRow (id : Nat)
  | clubMatchRow (clubID matchID : Nat)
  | lineupRow (id : Nat)
deriving DecidableEq, Repr

/-- A database operation: an SQL INSERT buffered in the open transaction, or a
`commit()` making the buffered rows durable. -/
inductive DBOp where
  | ins (r : SchemaRow)
  | commit
deriving DecidableEq, Repr

/-- Store state: durably committed rows and the pending (uncommitted) rows of
the open transaction.  A failure loses `pending` and keeps `committed`. -/
structure DBState where
  committed : List SchemaRow
  pending : List SchemaRow
deriving DecidableEq, Repr

/-- Effect of one operation. -/
def applyOp (db : DBState) : DBOp → DBState
  | .ins r => ⟨db.committed, db.pending ++ [r]⟩
  | .commit => ⟨db.committed ++ db.pending, []⟩

/-- Run a sequence of operations. -/
def runOps (ops : List DBOp) (db : DBState) : DBState :=
  ops.foldl applyOp db

/-- The operation sequence of one iteration of the `insertMatches` loop
(lines 288-294 plus the insert and commit inside `insertLineups`, 344-349):
insert the Matches row, commit (line 291), insert the two ClubMatch rows
(no commit), insert the Lineups row, commit (line 349). -/
def matchOps (matchID homeID awayID : Nat) : List DBOp :=
  [.ins (.matchRow matchID), .commit,
   .ins (.clubMatchRow homeID matchID), .ins (.clubMatchRow awayID matchID),
   .ins (.lineupRow matchID), .commit]

/-! ## Theorems -/

/-- On the fixed May-30 boundaries, `dateLt` is antitone in the boundary year:
a date not before the year-`y2` boundary is not before any earlier boundary. -/
lemma dateLt_boundary_false_of_le {d : PyDate} {y1 y2 : Nat} (h : y1 ≤ y2)
    (h2 : dateLt d ⟨y2, 5, 30⟩ = false) : dateLt d ⟨y1, 5, 30⟩ = false := by
  simp only [dateLt, Bool.or_eq_false_iff, Bool.and_eq_false_iff,
    decide_eq_false_iff_not, Nat.not_lt, beq_eq_false_iff_ne, ne_eq] at h2 ⊢
  omega

/-- Claim C9: `dateToSeason` maps a date to the label of the first season-end
boundary (May 30 of 2013..2020, labels "2012/2013".."2019/2020") strictly after
it: dates before 2013-05-30 map to "2012/2013"; for each later boundary year
`Y ≤ 2020`, dates in [May 30 (Y-1), May 30 Y) map to "(Y-1)/Y"; dates on or
after 2020-05-30 map to no label (`none`). -/
theorem dateToSeason_boundaries (d : PyDate) :
    (dateLt d ⟨2013, 5, 30⟩ = true → dateToSeason d = some "2012/2013") ∧
    (dateLt d ⟨2013, 5, 30⟩ = false → dateLt d ⟨2014, 5, 30⟩ = true →
      dateToSeason d = some "2013/2014") ∧
    (dateLt d ⟨2014, 5, 30⟩ = false → dateLt d ⟨2015, 5, 30⟩ = true →
      dateToSeason d = some "2014/2015") ∧
    (dateLt d ⟨2015, 5, 30⟩ = false → dateLt d ⟨2016, 5, 30⟩ = true →
      dateToSeason d = some "2015/2016") ∧
    (dateLt d ⟨2016, 5, 30⟩ = false → dateLt d ⟨2017, 5, 30⟩ = true →
      dateToSeason d = some "2016/2017") ∧
    (dateLt d ⟨2017, 5, 30⟩ = false → dateLt d ⟨2018, 5, 30⟩ = true →
      dateToSeason d = some "2017/2018") ∧
    (dateLt d ⟨2018, 5, 30⟩ = false → dateLt d ⟨2019, 5, 30⟩ = true →
      dateToSeason d = some "2018/2019") ∧
    (dateLt d ⟨2019, 5, 30⟩ = false → dateLt d ⟨2020, 5, 30⟩ = true →
      dateToSeason d = some "2019/2020") ∧
    (dateLt d ⟨2020, 5, 30⟩ = false → dateToSeason d = none) := by
  have mono : ∀ y1 y2 : Nat, y1 ≤ y2 → dateLt d ⟨y2, 5, 30⟩ = false →
      dateLt d ⟨y1, 5, 30⟩ = false := fun _ _ h h2 => dateLt_boundary_false_of_le h h2
  refine ⟨?_, ?_, ?_, ?_, ?_, ?_, ?_, ?_, ?_⟩ <;> intro h1
  · simp [dateToSeason, seasonBoundaries, List.find?, h1]
  · intro h2
    simp [dateToSeason, seasonBoundaries, List.find?, h1, h2]
  · intro h2
    simp [dateToSeason, seasonBoundaries, List.find?, h1, h2,
      mono 2013 2014 (by omega) h1]
  · intro h2
    simp [dateToSeason, seasonBoundaries, List.find?, h1, h2,
      mono 2013 2015 (by omega) h1, mono 2014 2015 (by omega) h1]
  · intro h2
    simp [dateToSeason, seasonBoundaries, List.find?, h1, h2,
      mono 2013 2016 (by omega) h1, mono 2014 2016 (by omega) h1,
      mono 2015 2016 (by omega) h1]
  · intro h2
    simp [dateToSeason, seasonBoundaries, List.find?, h1, h2,
      mono 2013 2017 (by omega) h1, mono 2014 2017 (by omega) h1,
      mono 2015 2017 (by omega) h1, mono 2016 2017 (by omega) h1]
  · intro h2
    simp [dateToSeason, seasonBoundaries, List.find?, h1, h2,
      mono 2013 2018 (by omega) h1, mono 2014 2018 (by omega) h1,
      mono 2015 2018 (by omega) h1, mono 2016 2018 (by omega) h1,
      mono 2017 2018 (by omega) h1]
  · intro h2
    simp [dateToSeason, seasonBoundaries, List.find?, h1, h2,
      mono 2013 2019 (by omega) h1, mono 2014 2019 (by omega) h1,
      mono 2015 2019 (by omega) h1, mono 2016 2019 (by omega) h1,
      mono 2017 2019 (by omega) h1, mono 2018 2019 (by omega) h1]
  · simp [dateToSeason, seasonBoundaries, List.find?, h1,
      mono 2013 2020 (by omega) h1, mono 2014 2020 (by omega) h1,
      mono 2015 2020 (by omega) h1, mono 2016 2020 (by omega) h1,
      mono 2017 2020 (by omega) h1, mono 2018 2020 (by omega) h1,
      mono 2019 2020 (by omega) h1]

/-- Witness for C9 at concrete dates: 12 May 2018 falls in season 2017/2018,
and 1 June 2020 is past the last boundary. -/
theorem dateToSeason_boundaries_witness :
    dateToSeason ⟨2018, 5, 12⟩ = some "2017/2018" ∧ dateToSeason ⟨2020, 6, 1⟩ = none :=
  ⟨(dateToSeason_boundaries ⟨2018, 5, 12⟩).2.2.2.2.2.1 (by decide) (by decide),
   (dateToSeason_boundaries ⟨2020, 6, 1⟩).2.2.2.2.2.2.2.2 (by decide)⟩

/-- Counterexample to claim C3: `insertMatches` commits the Matches row (line
291) before the ClubMatch and Lineups inserts.  Failing right after that commit
(the first two operations of the unit) leaves a persisted store containing
match 1 without its lineup and without either club-match row. -/
theorem insertMatches_match_committed_alone :
    SchemaRow.matchRow 1 ∈ (runOps ((matchOps 1 10 20).take 2) ⟨[], []⟩).committed ∧
    SchemaRow.lineupRow 1 ∉ (runOps ((matchOps 1 10 20).take 2) ⟨[], []⟩).committed ∧
    SchemaRow.clubMatchRow 10 1 ∉ (runOps ((matchOps 1 10 20).take 2) ⟨[], []⟩).committed ∧
    SchemaRow.clubMatchRow 20 1 ∉ (runOps ((matchOps 1 10 20).take 2) ⟨[], []⟩).committed := by
  decide

/-- Amended claim C3: per match, the Matches row is committed on its own first;
the two ClubMatch rows and the Lineups row are committed together only at the
end of `insertLineups`.  Hence after a failure at any point (any prefix of the
unit's operations) the store never contains the lineup or a club-match row
without its match, and a unit that runs to completion persists all four rows —
but a match row may be persisted alone (see the counterexample). -/
theorem insertMatches_commit_structure (m hc ac k : Nat) :
    (SchemaRow.lineupRow m ∈ (runOps ((matchOps m hc ac).take k) ⟨[], []⟩).committed →
      SchemaRow.matchRow m ∈ (runOps ((matchOps m hc ac).take k) ⟨[], []⟩).committed ∧
      SchemaRow.clubMatchRow hc m ∈ (runOps ((matchOps m hc ac).take k) ⟨[], []⟩).committed ∧
      SchemaRow.clubMatchRow ac m ∈ (runOps ((matchOps m hc ac).take k) ⟨[], []⟩).committed) ∧
    (SchemaRow.clubMatchRow hc m ∈ (runOps ((matchOps m hc ac).take k) ⟨[], []⟩).committed →
      SchemaRow.matchRow m ∈ (runOps ((matchOps m hc ac).take k) ⟨[], []⟩).committed) ∧
    (SchemaRow.clubMatchRow ac m ∈ (runOps ((matchOps m hc ac).take k) ⟨[], []⟩).committed →
      SchemaRow.matchRow m ∈ (runOps ((matchOps m hc ac).take k) ⟨[], []⟩).committed) ∧
    (6 ≤ k →
      SchemaRow.matchRow m ∈ (runOps ((matchOps m hc ac).take k) ⟨[], []⟩).committed ∧
      SchemaRow.clubMatchRow hc m ∈ (runOps ((matchOps m hc ac).take k) ⟨[], []⟩).committed ∧
      SchemaRow.clubMatchRow ac m ∈ (runOps ((matchOps m hc ac).take k) ⟨[], []⟩).committed ∧
      SchemaRow.lineupRow m ∈ (runOps ((matchOps m hc ac).take k) ⟨[], []⟩).committed) := by
  have htake : ∀ n, (matchOps m hc ac).take (n + 6) = matchOps m hc ac :=
    fun n => List.take_of_length_le (by simp [matchOps])
  match k with
  | 0 => simp [matchOps, runOps, applyOp]
  | 1 => simp [matchOps, runOps, applyOp]
  | 2 => simp [matchOps, runOps, applyOp]
  | 3 => simp [matchOps, runOps, applyOp]
  | 4 => simp [matchOps, runOps, applyOp]
  | 5 => simp [matchOps, runOps, applyOp]
  | n + 6 => rw [htake n]; simp [matchOps, runOps, applyOp]

/-- Witness for the amended C3 at a complete unit: running all six operations
for match 1 (clubs 10 and 20) persists all four rows. -/
theorem insertMatches_commit_structure_witness :
    SchemaRow.matchRow 1 ∈ (runOps ((matchOps 1 10 20).take 6) ⟨[], []⟩).committed ∧
    SchemaRow.clubMatchRow 10 1 ∈ (runOps ((matchOps 1 10 20).take 6) ⟨[], []⟩).committed ∧
    SchemaRow.clubMatchRow 20 1 ∈ (runOps ((matchOps 1 10 20).take 6) ⟨[], []⟩).committed ∧
    SchemaRow.lineupRow 1 ∈ (runOps ((matchOps 1 10 20).take 6) ⟨[], []⟩).committed :=
  (insertMatches_commit_structure 1 10 20 6).2.2.2 (by decide)

lemma assignSeason_map_fst (s : String) (cur : Nat) (cs : List String) :
    (assignSeason s cur cs).map Prod.fst = cs.map (fun c => (s, c)) := by
  induction cs generalizing cur with
  | nil => rfl
  | cons c cs ih => simp [assignSeason, ih]

lemma assignSeason_map_snd (s : String) (cur : Nat) (cs : List String) :
    (assignSeason s cur cs).map Prod.snd = List.range' cur cs.length := by
  induction cs generalizing cur with
  | nil => rfl
  | cons c cs ih => simp [assignSeason, ih, List.range'_succ]

lemma assignClubIDsFrom_map_fst (cur : Nat) (m : List (String × List String)) :
    (assignClubIDsFrom cur m).map Prod.fst = flattenClubs m := by
  induction m generalizing cur with
  | nil => rfl
  | cons p rest ih =>
      simp [assignClubIDsFrom, flattenClubs, assignSeason_map_fst, ih]

lemma assignClubIDsFrom_map_snd (cur : Nat) (m : List (String × List String)) :
    (assignClubIDsFrom cur m).map Prod.snd = List.range' cur (flattenClubs m).length := by
  induction m generalizing cur with
  | nil => rfl
  | cons p rest ih =>
      simp [assignClubIDsFrom, flattenClubs, assignSeason_map_snd, ih]
      omega

lemma insertPlayersFrom_map_snd (cur : Nat) (rows : List PlayerRow) :
    (insertPlayersFrom cur rows).map Prod.snd = rows := by
  induction rows generalizing cur with
  | nil => rfl
  | cons r rs ih => simp [insertPlayersFrom, ih]

lemma insertPlayersFrom_map_fst (cur : Nat) (rows : List PlayerRow) :
    (insertPlayersFrom cur rows).map Prod.fst = List.range' cur rows.length := by
  induction rows generalizing cur with
  | nil => rfl
  | cons r rs ih => simp [insertPlayersFrom, ih, List.range'_succ]

/-- Claim C5: `assignClubIDs` keys exactly the (season, club) pairs of the
season-partition map, in season-then-club order, with the consecutive integers
1, 2, … (`List.range' 1 n`); `insertPlayers` keys the raw rows, in encounter
order, also with the consecutive integers from 1.  Both are pure functions of
the input sequence, so two runs over the same rows in the same order produce
these identical mappings. -/
theorem surrogate_keys_consecutive (m : List (String × List String)) (rows : List PlayerRow) :
    (assignClubIDs m).map Prod.fst = flattenClubs m ∧
    (assignClubIDs m).map Prod.snd = List.range' 1 (flattenClubs m).length ∧
    (insertPlayersKeyed rows).map Prod.snd = rows ∧
    (insertPlayersKeyed rows).map Prod.fst = List.range' 1 rows.length :=
  ⟨assignClubIDsFrom_map_fst 1 m, assignClubIDsFrom_map_snd 1 m,
   insertPlayersFrom_map_snd 1 rows, insertPlayersFrom_map_fst 1 rows⟩

/-- Python dictionary access `_existing_clubs[season]` on the association-list
embedding: the value of the first entry with the queried key, if any. -/
def lookupSeason : List (String × List String) → String → Option (List String)
  | [], _ => none
  | (t, ts) :: rest, s => if t = s then some ts else lookupSeason rest s

lemma lookup_updateClubs (acc : List (String × List String)) (s' c s : String) :
    lookupSeason (updateClubs acc s' c) s =
      if s' = s then some (appendNew ((lookupSeason acc s).getD []) c)
      else lookupSeason acc s := by
  induction acc with
  | nil =>
      by_cases h : s' = s <;> simp [updateClubs, lookupSeason, h, appendNew]
  | cons hd rest ih =>
      obtain ⟨t, ts⟩ := hd
      by_cases h1 : t = s'
      · subst h1
        by_cases h2 : t = s <;> simp [updateClubs, lookupSeason, h2]
      · by_cases h2 : t = s
        · subst h2
          have h3 : ¬ s' = t := fun hh => h1 hh.symm
          simp [updateClubs, lookupSeason, h1, h3]
        · simp [updateClubs, lookupSeason, h1, h2, ih]

lemma collect_lookup_fold (rows : List PlayerRow) (acc : List (String × List String))
    (s : String) :
    lookupSeason (rows.foldl (fun a p => updateClubs a p.season p.club) acc) s =
      ((rows.filter (fun p => p.season == s)).map (fun p => p.club)).foldl
        (fun o c => some (appendNew (o.getD []) c)) (lookupSeason acc s) := by
  induction rows generalizing acc with
  | nil => rfl
  | cons p rows ih =>
      by_cases h : p.season = s
      · simp [List.filter_cons, beq_iff_eq, h, ih, lookup_updateClubs]
      · simp [List.filter_cons, beq_iff_eq, h, ih, lookup_updateClubs]

lemma foldl_appendNew_some (cs : List String) (l : List String) :
    cs.foldl (fun o c => some (appendNew (o.getD []) c)) (some l) =
      some (cs.foldl appendNew l) := by
  induction cs generalizing l with
  | nil => rfl
  | cons c cs ih => simp [ih]

lemma foldl_appendNew_none (cs : List String) (h : cs ≠ []) :
    cs.foldl (fun o c => some (appendNew (o.getD []) c)) none =
      some (firstSeenDistinct cs) := by
  match cs with
  | c :: cs' =>
      simp [firstSeenDistinct, foldl_appendNew_some]

lemma nodup_foldl_appendNew (cs : List String) (acc : List String) (h : acc.Nodup) :
    (cs.foldl appendNew acc).Nodup := by
  induction cs generalizing acc with
  | nil => exact h
  | cons c cs ih =>
      apply ih
      by_cases hc : c ∈ acc
      · simpa [appendNew, hc] using h
      · simp [appendNew, hc, List.nodup_append, h]

lemma foldl_appendNew_sublist (cs : List String) (acc : List String) :
    List.Sublist (cs.foldl appendNew acc) (acc ++ cs) := by
  induction cs generalizing acc with
  | nil => simp
  | cons c cs ih =>
      refine List.Sublist.trans (ih (appendNew acc c)) ?_
      by_cases hc : c ∈ acc
      · simp only [appendNew, hc, if_pos]
        exact (List.append_sublist_append_left acc).mpr (List.sublist_cons_self c cs)
      · simp [appendNew, hc]

/-- Claim C10: looking up a season in the dictionary built by `collectClubs`
yields exactly the distinct club names of that season's rows in first-seen
order (`firstSeenDistinct`, the spec-side rendering), with no entry for a
season absent from the rows; the list is duplicate-free and is a subsequence
of the season's raw club-name sequence (order preservation).  Seasons are
looked up independently, so a club appearing in several seasons is recorded
once under each. -/
theorem collectClubs_per_season (rows : List PlayerRow) (s : String) :
    lookupSeason (collectClubs rows) s =
      (if ((rows.filter (fun p => p.season == s)).map (fun p => p.club)) = [] then none
       else some (firstSeenDistinct ((rows.filter (fun p => p.season == s)).map
         (fun p => p.club)))) ∧
    ((lookupSeason (collectClubs rows) s).getD []).Nodup ∧
    List.Sublist
      (firstSeenDistinct ((rows.filter (fun p => p.season == s)).map (fun p => p.club)))
      ((rows.filter (fun p => p.season == s)).map (fun p => p.club)) := by
  have key : lookupSeason (collectClubs rows) s =
      (if ((rows.filter (fun p => p.season == s)).map (fun p => p.club)) = [] then none
       else some (firstSeenDistinct ((rows.filter (fun p => p.season == s)).map
         (fun p => p.club)))) := by
    have h := collect_lookup_fold rows [] s
    simp only [lookupSeason] at h
    rw [collectClubs] at *
    rw [h]
    by_cases he : ((rows.filter (fun p => p.season == s)).map (fun p => p.club)) = []
    · simp [he]
    · rw [foldl_appendNew_none _ he, if_neg he]
  refine ⟨key, ?_, foldl_appendNew_sublist _ []⟩
  rw [key]
  by_cases he : ((rows.filter (fun p => p.season == s)).map (fun p => p.club)) = []
  · simp [he]
  · simp only [he, if_neg, ite_false, Option.getD_some]
    exact nodup_foldl_appendNew _ [] List.nodup_nil

lemma bigramStep_eq_max (best : Nat × Nat) (cS cL id : Nat) :
    bigramStep best cS cL id = if best.1 < max cS cL then (max cS cL, id) else best := by
  by_cases h1 : cS ≤ cL
  · have hm : max cS cL = cL := Nat.max_eq_right h1
    have h1' : ¬ cL < cS := Nat.not_lt.mpr h1
    by_cases h2 : best.1 < cL <;> simp [bigramStep, h1, h1', h2, hm]
  · have h1'' : cL < cS := Nat.lt_of_not_le h1
    have hm : max cS cL = cS := Nat.max_eq_left (Nat.le_of_lt h1'')
    by_cases h2 : best.1 < cS <;> simp [bigramStep, h1, h1'', h2, hm]

lemma selectGo_cons (pb : List (Char × Char)) (c : Cand) (cs : List Cand) (best : Nat × Nat) :
    selectGo pb (c :: cs) best =
      selectGo pb cs
        (bigramStep best (commonBigrams (generateBigrams c.2.1) pb)
          (commonBigrams (generateBigrams c.2.2) pb) c.1) := rfl

lemma selectGo_keep (pb : List (Char × Char)) (team : List Cand) (best : Nat × Nat)
    (h : ∀ c ∈ team, candScore pb c ≤ best.1) : selectGo pb team best = best := by
  induction team with
  | nil => rfl
  | cons c cs ih =>
      rw [selectGo_cons, bigramStep_eq_max]
      have hc : candScore pb c ≤ best.1 := h c (by simp)
      rw [if_neg (by simpa [candScore] using Nat.not_lt.mpr hc)]
      exact ih (fun d hd => h d (by simp [hd]))

lemma commonBigrams_eq_zero (cand pb : List (Char × Char)) (h : ∀ b ∈ cand, b ∉ pb) :
    commonBigrams cand pb = 0 := by
  simp only [commonBigrams, List.length_eq_zero, List.filter_eq_nil_iff]
  intro b hb
  simpa using h b hb

lemma selectGo_all_zero (pb : List (Char × Char)) (team : List Cand)
    (h : ∀ c ∈ team, candScore pb c = 0) : selectGo pb team (0, 0) = (0, 0) := by
  refine selectGo_keep pb team (0, 0) (fun c hc => ?_)
  simp [h c hc]

lemma compareBigrams_cons (p : String) (ps : List String) (team : List Cand) :
    compareBigrams (p :: ps) team =
      (selectGo (generateBigrams p) team (0, 0)).2 ::
        compareBigrams ps
          (team.filter (fun c => c.1 != (selectGo (generateBigrams p) team (0, 0)).2)) := rfl

lemma compareBigrams_length (ps : List String) (team : List Cand) :
    (compareBigrams ps team).length = ps.length := by
  induction ps generalizing team with
  | nil => rfl
  | cons p ps ih => rw [compareBigrams_cons]; simp [ih]

lemma compareBigrams_nil_pool (ps : List String) :
    compareBigrams ps [] = List.replicate ps.length 0 := by
  induction ps with
  | nil => rfl
  | cons p ps ih => rw [compareBigrams_cons]; simp [selectGo, ih, List.replicate_succ]

/-- Claim C2: a lineup slot handed to the bigram pass whose name shares no
character bigram with any candidate still in the pool when that slot is scored
receives the value 0 — the null sentinel, as player keys start at 1 — and the
pass is total: it always produces one value per slot (no exception), in
particular turning every slot into 0 when the pool is exhausted. -/
theorem bigram_no_overlap_null (players : List String) (team : List Cand) (i : Nat)
    (p : String) (hp : players.get? i = some p)
    (h : ∀ c ∈ poolAt players team i,
      (∀ b ∈ generateBigrams c.2.1, b ∉ generateBigrams p) ∧
      (∀ b ∈ generateBigrams c.2.2, b ∉ generateBigrams p)) :
    (compareBigrams players team).get? i = some 0 ∧
    (compareBigrams players team).length = players.length ∧
    compareBigrams players [] = List.replicate players.length 0 := by
  refine ⟨?_, compareBigrams_length players team, compareBigrams_nil_pool players⟩
  induction i generalizing players team with
  | zero =>
      match players, hp with
      | q :: ps, hp =>
          have hq : q = p := by simpa using hp
          subst hq
          rw [compareBigrams_cons]
          have hzero : selectGo (generateBigrams q) team (0, 0) = (0, 0) := by
            refine selectGo_all_zero _ _ (fun c hc => ?_)
            have hc' := h c (by simpa [poolAt] using hc)
            simp [candScore, commonBigrams_eq_zero _ _ hc'.1, commonBigrams_eq_zero _ _ hc'.2]
          simp only [List.get?_cons_zero, hzero]
  | succ i ih =>
      match players, hp with
      | q :: ps, hp =>
          rw [compareBigrams_cons]
          have hp' : ps.get? i = some p := by simpa using hp
          exact ih ps _ hp' (fun c hc => h c (by simpa [poolAt] using hc))

/-- Witness for C2: the name "Xy Zu" shares no bigram with the single roster
candidate, so its slot is persisted as the 0 sentinel without an error. -/
theorem bigram_no_overlap_null_witness :
    (compareBigrams ["Xy Zu"] [(1, "Ab Cd", "Abba Cadd")]).get? 0 = some 0 :=
  (bigram_no_overlap_null ["Xy Zu"] [(1, "Ab Cd", "Abba Cadd")] 0 "Xy Zu"
    (by decide) (by decide)).1

lemma selectGo_dominant (pb : List (Char × Char)) (c : Cand) (L : Nat)
    (hL : L ≤ candScore pb c) :
    ∀ (team : List Cand) (best : Nat × Nat), c ∈ team →
      (∀ c' ∈ team, c' = c ∨ candScore pb c' < L) → best.1 < L →
      (selectGo pb team best).2 = c.1 := by
  intro team
  induction team with
  | nil => intro best h; simp at h
  | cons d cs ih =>
      intro best hcmem hall hbest
      rw [selectGo_cons, bigramStep_eq_max]
      by_cases hd : d = c
      · subst hd
        rw [if_pos (by simpa [candScore] using Nat.lt_of_lt_of_le hbest hL)]
        have hkeep : selectGo pb cs (candScore pb d, d.1) = (candScore pb d, d.1) := by
          refine selectGo_keep pb cs _ (fun e he => ?_)
          rcases hall e (by simp [he]) with he' | he'
          · subst he'; rfl
          · exact Nat.le_of_lt (Nat.lt_of_lt_of_le he' hL)
        simpa [candScore] using congrArg Prod.snd hkeep
      · have hcs : c ∈ cs := by
          rcases List.mem_cons.mp hcmem with h' | h'
          · exact absurd h'.symm hd
          · exact h'
        have hdlt : candScore pb d < L := by
          rcases hall d (by simp) with h' | h'
          · exact absurd h' hd
          · exact h'
        split
        · exact ih _ hcs (fun e he => hall e (by simp [he])) (by simpa [candScore] using hdlt)
        · exact ih _ hcs (fun e he => hall e (by simp [he])) hbest

/-- Claim C6: the per-candidate update of `compareBigrams` scores a candidate
by the larger of its short-name and long-name common-bigram counts and replaces
the running best exactly when that score is strictly greater (ties keep the
earlier candidate); consequently a slot name sharing strictly more bigrams with
one candidate's long name than the (max) score of every other candidate
resolves to that candidate's key. -/
theorem compareBigrams_dominant_long (p : String) (ps : List String) (team : List Cand)
    (c : Cand) (hmem : c ∈ team)
    (hpos : 0 < commonBigrams (generateBigrams c.2.2) (generateBigrams p))
    (hdom : ∀ c' ∈ team, c' ≠ c →
      candScore (generateBigrams p) c' <
        commonBigrams (generateBigrams c.2.2) (generateBigrams p)) :
    (compareBigrams (p :: ps) team).head? = some c.1 ∧
    (∀ (best : Nat × Nat) (cS cL id : Nat),
      bigramStep best cS cL id = if best.1 < max cS cL then (max cS cL, id) else best) := by
  refine ⟨?_, bigramStep_eq_max⟩
  rw [compareBigrams_cons]
  have hsel := selectGo_dominant (generateBigrams p) c
    (commonBigrams (generateBigrams c.2.2) (generateBigrams p))
    (by simp [candScore]) team (0, 0) hmem
    (fun c' hc' => by
      by_cases h : c' = c
      · exact Or.inl h
      · exact Or.inr (hdom c' hc' h))
    hpos
  simp only [List.head?_cons, hsel]

/-- Witness for C6: "Lionel Messi" shares nine bigrams with candidate 7's long
name and none with candidate 8's names, so the slot resolves to key 7. -/
theorem compareBigrams_dominant_long_witness :
    (compareBigrams ["Lionel Messi"]
      [(8, "K. Benzema", "Karim Benzema"), (7, "L. Messi", "Lionel Messi")]).head? = some 7 :=
  (compareBigrams_dominant_long "Lionel Messi" []
    [(8, "K. Benzema", "Karim Benzema"), (7, "L. Messi", "Lionel Messi")]
    (7, "L. Messi", "Lionel Messi") (by decide) (by decide) (by decide)).1

/-- Counterexample to claim C1: "Messi" is a proper substring of the roster
entry's short name "L. Messi" (and of its long name), yet the containment pass
assigns nothing (the Python test `h_player in (id, short, long)` is tuple
membership, i.e. string equality with the short or long name, not substring
containment): the produced value list is empty and the name is left over for
the bigram fallback. -/
theorem containment_substring_not_assigned :
    (∃ l r, ("L. Messi").data = l ++ ("Messi").data ++ r) ∧
    (contGo ["Messi"] [(1, "L. Messi", "Lionel Messi")] ["Messi"]).1 = [] ∧
    (contGo ["Messi"] [(1, "L. Messi", "Lionel Messi")] ["Messi"]).2.1 = ["Messi"] :=
  ⟨⟨("L. ").data, [], by decide⟩, by decide, by decide⟩

lemma find?_eq_some_of_unique {α} (p : α → Bool) (l : List α) (a : α)
    (ha : a ∈ l) (hpa : p a = true) (hu : ∀ b ∈ l, p b = true → b = a) :
    l.find? p = some a := by
  induction l with
  | nil => simp at ha
  | cons b l ih =>
      by_cases hb : p b = true
      · have hba : b = a := hu b (by simp) hb
        subst hba
        exact List.find?_cons_of_pos _ hb
      · rw [List.find?_cons_of_neg _ (by simpa using hb)]
        refine ih ?_ (fun c hc hpc => hu c (by simp [hc]) hpc)
        rcases List.mem_cons.mp ha with h | h
        · subst h; exact absurd hpa hb
        · exact h

lemma contGo_cons_found (n : String) (ns : List String) (pool : List Cand)
    (leftover : List String) (c : Cand)
    (h : pool.find? (fun c => containsName n c) = some c) :
    contGo (n :: ns) pool leftover =
      (c.1 :: (contGo ns (pool.filter (fun c' => c' != c))
          (leftover.filter (fun x => x != n))).1,
        (contGo ns (pool.filter (fun c' => c' != c))
          (leftover.filter (fun x => x != n))).2) := by
  simp [contGo, h]

lemma contGo_cons_none (n : String) (ns : List String) (pool : List Cand)
    (leftover : List String)
    (h : pool.find? (fun c => containsName n c) = none) :
    contGo (n :: ns) pool leftover = contGo ns pool leftover := by
  simp [contGo, h]

/-- Amended claim C1: the containment pass matches a lineup name against a
candidate by exact equality with the candidate's short or long name (Python
tuple membership), not by substring containment.  When the (distinct) lineup
names each equal the short or long name of exactly one pool candidate, with
distinct names matching distinct candidates, the pass assigns every slot the
key of its unique matching candidate, in input-slot order, and leaves no name
to the bigram fallback. -/
theorem containment_unique_exact_matches_resolve_all
    (names : List String) (pool : List Cand) (f : String → Cand)
    (hnd : names.Nodup)
    (hmatch : ∀ n ∈ names, f n ∈ pool ∧ containsName n (f n) = true)
    (huniq : ∀ n ∈ names, ∀ c ∈ pool, containsName n c = true → c = f n)
    (hinj : ∀ n ∈ names, ∀ m ∈ names, n ≠ m → f n ≠ f m) :
    (contGo names pool names).1 = names.map (fun n => (f n).1) ∧
    (contGo names pool names).2.1 = [] := by
  induction names generalizing pool with
  | nil => simp [contGo]
  | cons n ns ih =>
      have hfn := hmatch n (by simp)
      have hfind : pool.find? (fun c => containsName n c) = some (f n) :=
        find?_eq_some_of_unique _ pool (f n) hfn.1 hfn.2
          (fun c hc hpc => huniq n (by simp) c hc hpc)
      have hnotin : n ∉ ns := (List.nodup_cons.mp hnd).1
      have hleft : (n :: ns).filter (fun x => x != n) = ns := by
        rw [List.filter_cons]
        simp only [bne_self_eq_false, Bool.false_eq_true, if_false]
        exact List.filter_eq_self.mpr (fun x hx => by
          simpa [bne_iff_ne] using fun h : x = n => hnotin (h ▸ hx))
      rw [contGo_cons_found n ns pool (n :: ns) (f n) hfind, hleft]
      have ihr := ih (pool.filter (fun c' => c' != f n))
        ((List.nodup_cons.mp hnd).2)
        (fun m hm => by
          refine ⟨List.mem_filter.mpr ⟨(hmatch m (by simp [hm])).1, ?_⟩,
            (hmatch m (by simp [hm])).2⟩
          have hne : f m ≠ f n := by
            refine hinj m (by simp [hm]) n (by simp) (fun h => hnotin (h ▸ hm))
          simpa [bne_iff_ne] using hne)
        (fun m hm c hc hpc =>
          huniq m (by simp [hm]) c (List.mem_of_mem_filter hc) hpc)
        (fun m hm m' hm' hne => hinj m (by simp [hm]) m' (by simp [hm']) hne)
      exact ⟨by simp [ihr.1], ihr.2⟩

/-- Witness for the amended C1: 22 distinct lineup names (11 home, 11 away),
each exactly equal to the short name of its own roster candidate, all resolve
in the containment pass to the 22 distinct keys 1..22, in slot order, with no
leftover for the bigram fallback. -/
theorem containment_unique_exact_matches_resolve_all_witness :
    (contGo ["Ha", "Hb", "Hc", "Hd", "He", "Hf", "Hg", "Hh", "Hi", "Hj", "Hk"]
      [(1, "Ha", "H A"), (2, "Hb", "H B"), (3, "Hc", "H C"), (4, "Hd", "H D"),
       (5, "He", "H E"), (6, "Hf", "H F"), (7, "Hg", "H G"), (8, "Hh", "H H"),
       (9, "Hi", "H I"), (10, "Hj", "H J"), (11, "Hk", "H K")]
      ["Ha", "Hb", "Hc", "Hd", "He", "Hf", "Hg", "Hh", "Hi", "Hj", "Hk"]).1 =
      [1, 2, 3, 4, 5, 6, 7, 8, 9, 10, 11] ∧
    (contGo ["Ha", "Hb", "Hc", "Hd", "He", "Hf", "Hg", "Hh", "Hi", "Hj", "Hk"]
      [(1, "Ha", "H A"), (2, "Hb", "H B"), (3, "Hc", "H C"), (4, "Hd", "H D"),
       (5, "He", "H E"), (6, "Hf", "H F"), (7, "Hg", "H G"), (8, "Hh", "H H"),
       (9, "Hi", "H I"), (10, "Hj", "H J"), (11, "Hk", "H K")]
      ["Ha", "Hb", "Hc", "Hd", "He", "Hf", "Hg", "Hh", "Hi", "Hj", "Hk"]).2.1 = [] ∧
    (contGo ["Aa", "Ab", "Ac", "Ad", "Ae", "Af", "Ag", "Ah", "Ai", "Aj", "Ak"]
      [(12, "Aa", "A A"), (13, "Ab", "A B"), (14, "Ac", "A C"), (15, "Ad", "A D"),
       (16, "Ae", "A E"), (17, "Af", "A F"), (18, "Ag", "A G"), (19, "Ah", "A H"),
       (20, "Ai", "A I"), (21, "Aj", "A J"), (22, "Ak", "A K")]
      ["Aa", "Ab", "Ac", "Ad", "Ae", "Af", "Ag", "Ah", "Ai", "Aj", "Ak"]).1 =
      [12, 13, 14, 15, 16, 17, 18, 19, 20, 21, 22] ∧
    (contGo ["Aa", "Ab", "Ac", "Ad", "Ae", "Af", "Ag", "Ah", "Ai", "Aj", "Ak"]
      [(12, "Aa", "A A"), (13, "Ab", "A B"), (14, "Ac", "A C"), (15, "Ad", "A D"),
       (16, "Ae", "A E"), (17, "Af", "A F"), (18, "Ag", "A G"), (19, "Ah", "A H"),
       (20, "Ai", "A I"), (21, "Aj", "A J"), (22, "Ak", "A K")]
      ["Aa", "Ab", "Ac", "Ad", "Ae", "Af", "Ag", "Ah", "Ai", "Aj", "Ak"]).2.1 = [] := by
  have hh := containment_unique_exact_matches_resolve_all
    ["Ha", "Hb", "Hc", "Hd", "He", "Hf", "Hg", "Hh", "Hi", "Hj", "Hk"]
    [(1, "Ha", "H A"), (2, "Hb", "H B"), (3, "Hc", "H C"), (4, "Hd", "H D"),
     (5, "He", "H E"), (6, "Hf", "H F"), (7, "Hg", "H G"), (8, "Hh", "H H"),
     (9, "Hi", "H I"), (10, "Hj", "H J"), (11, "Hk", "H K")]
    (fun n =>
      if n = "Ha" then (1, "Ha", "H A") else if n = "Hb" then (2, "Hb", "H B")
      else if n = "Hc" then (3, "Hc", "H C") else if n = "Hd" then (4, "Hd", "H D")
      else if n = "He" then (5, "He", "H E") else if n = "Hf" then (6, "Hf", "H F")
      else if n = "Hg" then (7, "Hg", "H G") else if n = "Hh" then (8, "Hh", "H H")
      else if n = "Hi" then (9, "Hi", "H I") else if n = "Hj" then (10, "Hj", "H J")
      else (11, "Hk", "H K"))
    (by decide) (by decide) (by decide) (by decide)
  have ha := containment_unique_exact_matches_resolve_all
    ["Aa", "Ab", "Ac", "Ad", "Ae", "Af", "Ag", "Ah", "Ai", "Aj", "Ak"]
    [(12, "Aa", "A A"), (13, "Ab", "A B"), (14, "Ac", "A C"), (15, "Ad", "A D"),
     (16, "Ae", "A E"), (17, "Af", "A F"), (18, "Ag", "A G"), (19, "Ah", "A H"),
     (20, "Ai", "A I"), (21, "Aj", "A J"), (22, "Ak", "A K")]
    (fun n =>
      if n = "Aa" then (12, "Aa", "A A") else if n = "Ab" then (13, "Ab", "A B")
      else if n = "Ac" then (14, "Ac", "A C") else if n = "Ad" then (15, "Ad", "A D")
      else if n = "Ae" then (16, "Ae", "A E") else if n = "Af" then (17, "Af", "A F")
      else if n = "Ag" then (18, "Ag", "A G") else if n = "Ah" then (19, "Ah", "A H")
      else if n = "Ai" then (20, "Ai", "A I") else if n = "Aj" then (21, "Aj", "A J")
      else (22, "Ak", "A K"))
    (by decide) (by decide) (by decide) (by decide)
  exact ⟨hh.1.trans (by decide), hh.2, ha.1.trans (by decide), ha.2⟩

/-- The `levScan` fold body with the season guard stripped, over an already
season-filtered list (proof-side helper). -/
def levScanPlain (club : String) (l : List ((String × String) × Nat))
    (best : Option (Nat × Nat × String)) : Option (Nat × Nat × String) :=
  l.foldl
    (fun best e =>
      match best with
      | none => some (lev e.1.2.data club.data, e.2, e.1.2)
      | some b =>
          if lev e.1.2.data club.data < b.1 then some (lev e.1.2.data club.data, e.2, e.1.2)
          else some b)
    best

lemma levScan_eq_filter (season club : String) (tbl : List ((String × String) × Nat)) :
    levScan season club tbl =
      levScanPlain club (tbl.filter (fun e => e.1.1 == season)) none := by
  suffices h : ∀ best, levScan season club tbl = best →
      levScanPlain club (tbl.filter (fun e => e.1.1 == season)) none = best by
    exact (h _ rfl).symm
  unfold levScan levScanPlain
  suffices h : ∀ (l : List ((String × String) × Nat)) (b : Option (Nat × Nat × String)),
      l.foldl
        (fun best e =>
          if e.1.1 = season then
            match best with
            | none => some (lev e.1.2.data club.data, e.2, e.1.2)
            | some b =>
                if lev e.1.2.data club.data < b.1 then
                  some (lev e.1.2.data club.data, e.2, e.1.2)
                else some b
          else best)
        b =
      (l.filter (fun e => e.1.1 == season)).foldl
        (fun best e =>
          match best with
          | none => some (lev e.1.2.data club.data, e.2, e.1.2)
          | some b =>
              if lev e.1.2.data club.data < b.1 then
                some (lev e.1.2.data club.data, e.2, e.1.2)
              else some b)
        b by
    intro best hb
    rw [← hb]
    exact (h tbl none).symm
  intro l
  induction l with
  | nil => intro b; rfl
  | cons e l ih =>
      intro b
      by_cases he : e.1.1 = season
      · simp only [List.foldl_cons, List.filter_cons, he, if_pos, beq_self_eq_true, ih]
      · have he' : (e.1.1 == season) = false := by simpa using he
        simp only [List.foldl_cons, List.filter_cons, he, if_neg, ite_false, he',
          Bool.false_eq_true, ih]

lemma firstMinBy_cons_cons (f : α → Nat) (a b : α) (l : List α) :
    firstMinBy f (a :: b :: l) =
      if f b < f a then firstMinBy f (b :: l) else firstMinBy f (a :: l) := by
  cases h : firstMinBy f l with
  | none => simp only [firstMinBy, h]; split_ifs <;> first | rfl | omega
  | some m =>
      simp only [firstMinBy, h]
      split_ifs <;> first | rfl | (simp_all; omega) | simp_all

lemma levScanPlain_some (club : String) (l : List ((String × String) × Nat))
    (e0 : (String × String) × Nat) :
    levScanPlain club l (some (lev e0.1.2.data club.data, e0.2, e0.1.2)) =
      (firstMinBy (fun e => lev e.1.2.data club.data) (e0 :: l)).map
        (fun e => (lev e.1.2.data club.data, e.2, e.1.2)) := by
  induction l generalizing e0 with
  | nil => simp [levScanPlain, firstMinBy]
  | cons e l ih =>
      have hstep : levScanPlain club (e :: l)
          (some (lev e0.1.2.data club.data, e0.2, e0.1.2)) =
          levScanPlain club l
            (some (lev (if lev e.1.2.data club.data < lev e0.1.2.data club.data then e
                else e0).1.2.data club.data,
              (if lev e.1.2.data club.data < lev e0.1.2.data club.data then e else e0).2,
              (if lev e.1.2.data club.data < lev e0.1.2.data club.data then e
                else e0).1.2)) := by
        by_cases hc : lev e.1.2.data club.data < lev e0.1.2.data club.data <;>
          simp [levScanPlain, hc]
      rw [hstep, ih, firstMinBy_cons_cons]
      by_cases hc : lev e.1.2.data club.data < lev e0.1.2.data club.data <;> simp [hc]

lemma levScanPlain_none (club : String) (l : List ((String × String) × Nat)) :
    levScanPlain club l none =
      (firstMinBy (fun e => lev e.1.2.data club.data) l).map
        (fun e => (lev e.1.2.data club.data, e.2, e.1.2)) := by
  cases l with
  | nil => rfl
  | cons e l =>
      have h0 : levScanPlain club (e :: l) none =
          levScanPlain club l (some (lev e.1.2.data club.data, e.2, e.1.2)) := by
        simp [levScanPlain]
      rw [h0, levScanPlain_some]

lemma firstMinBy_isSome (f : α → Nat) (l : List α) (h : l ≠ []) :
    (firstMinBy f l).isSome := by
  cases l with
  | nil => exact absurd rfl h
  | cons a l =>
      cases h' : firstMinBy f l with
      | none => simp [firstMinBy, h']
      | some m => simp only [firstMinBy, h']; split_ifs <;> rfl

/-- Claim C4: the club lookup of `insertMatches` returns the exact
`(season, club)` entry's key when present (no fallback), and otherwise the key
of the same-season entry of minimum Levenshtein distance to the queried name,
ties broken by the entry encountered first in the key table's iteration order;
entries of other seasons are never considered (the characterisation filters to
the queried season), and when the season has at least one entry the result is
always some key. -/
theorem findClubID_exact_then_minimal_levenshtein (season club : String)
    (tbl : List ((String × String) × Nat))
    (hseason : ∃ e ∈ tbl, e.1.1 = season) :
    (∀ id, List.lookup (season, club) tbl = some id →
      findClubID season club tbl = some id) ∧
    (List.lookup (season, club) tbl = none →
      findClubID season club tbl =
        (firstMinBy (fun e => lev e.1.2.data club.data)
          (tbl.filter (fun e => e.1.1 == season))).map (fun e => e.2) ∧
      (findClubID season club tbl).isSome) := by
  constructor
  · intro id h
    simp [findClubID, h]
  · intro h
    have hmain : findClubID season club tbl =
        (firstMinBy (fun e => lev e.1.2.data club.data)
          (tbl.filter (fun e => e.1.1 == season))).map (fun e => e.2) := by
      simp only [findClubID, h, findClubLevenshteinID, levScan_eq_filter, levScanPlain_none,
        Option.map_map]
      rfl
    refine ⟨hmain, ?_⟩
    rw [hmain]
    obtain ⟨e, he, hes⟩ := hseason
    have hne : tbl.filter (fun e => e.1.1 == season) ≠ [] :=
      List.ne_nil_of_mem (List.mem_filter.mpr ⟨he, by simpa using hes⟩)
    have := firstMinBy_isSome (fun e => lev e.1.2.data club.data) _ hne
    cases hfm : firstMinBy (fun e => lev e.1.2.data club.data)
        (tbl.filter (fun e => e.1.1 == season)) with
    | none => rw [hfm] at this; simp at this
    | some m => simp [hfm]

/-- Witness for C4 on a three-entry key table: the exact query
("2017/2018", "Barcelona") returns key 3 directly, and the near-miss spelling
"Barcelonaa" also resolves to key 3 (distance 1 to the same-season "Barcelona",
9 to "Real Madrid"; the 2016/2017 "Barcelona" entry, key 1, is ignored). -/
theorem findClubID_exact_then_minimal_levenshtein_witness :
    findClubID "2017/2018" "Barcelona"
      [(("2016/2017", "Barcelona"), 1), (("2017/2018", "Real Madrid"), 2),
       (("2017/2018", "Barcelona"), 3)] = some 3 ∧
    findClubID "2017/2018" "Barcelonaa"
      [(("2016/2017", "Barcelona"), 1), (("2017/2018", "Real Madrid"), 2),
       (("2017/2018", "Barcelona"), 3)] = some 3 := by
  have h1 := (findClubID_exact_then_minimal_levenshtein "2017/2018" "Barcelona"
    [(("2016/2017", "Barcelona"), 1), (("2017/2018", "Real Madrid"), 2),
     (("2017/2018", "Barcelona"), 3)] ⟨(("2017/2018", "Real Madrid"), 2), by decide, rfl⟩).1
    3 (by decide)
  have h2 := (findClubID_exact_then_minimal_levenshtein "2017/2018" "Barcelonaa"
    [(("2016/2017", "Barcelona"), 1), (("2017/2018", "Real Madrid"), 2),
     (("2017/2018", "Barcelona"), 3)] ⟨(("2017/2018", "Real Madrid"), 2), by decide, rfl⟩).2
    (by decide)
  exact ⟨h1, h2.1.trans (by decide)⟩

lemma mem_filter_ne {pool : List Cand} {e c : Cand} :
    e ∈ pool.filter (fun c' => c' != c) ↔ e ∈ pool ∧ e ≠ c := by
  simp [List.mem_filter, bne_iff_ne]

lemma contGo_pool_sublist (names : List String) (pool : List Cand) (leftover : List String) :
    (contGo names pool leftover).2.2.Sublist pool := by
  induction names generalizing pool leftover with
  | nil => simp [contGo]
  | cons n ns ih =>
      cases hfind : pool.find? (fun c => containsName n c) with
      | some c =>
          rw [contGo_cons_found n ns pool leftover c hfind]
          exact ((ih _ _).trans (List.filter_sublist pool))
      | none =>
          rw [contGo_cons_none n ns pool leftover hfind]
          exact ih _ _

lemma contGo_vals_mem (names : List String) (pool : List Cand) (leftover : List String) :
    ∀ v ∈ (contGo names pool leftover).1, v ∈ pool.map (fun e => e.1) := by
  induction names generalizing pool leftover with
  | nil => simp [contGo]
  | cons n ns ih =>
      intro v hv
      cases hfind : pool.find? (fun c => containsName n c) with
      | some c =>
          rw [contGo_cons_found n ns pool leftover c hfind] at hv
          rcases List.mem_cons.mp hv with h | h
          · exact h ▸ List.mem_map_of_mem _ (List.mem_of_find?_eq_some hfind)
          · have := ih _ _ v h
            exact (((List.filter_sublist pool).map (fun e => e.1)).mem this)
      | none =>
          rw [contGo_cons_none n ns pool leftover hfind] at hv
          exact ih _ _ v hv

lemma id_not_in_filtered {pool : List Cand} {c : Cand}
    (hnd : (pool.map (fun e => e.1)).Nodup) (hc : c ∈ pool) :
    c.1 ∉ (pool.filter (fun c' => c' != c)).map (fun e => e.1) := by
  intro hmem
  obtain ⟨e, he, heid⟩ := List.mem_map.mp hmem
  obtain ⟨he', hne⟩ := mem_filter_ne.mp he
  exact hne (List.inj_on_of_nodup_map hnd he' hc heid)

lemma contGo_vals_nodup (names : List String) (pool : List Cand) (leftover : List String)
    (hnd : (pool.map (fun e => e.1)).Nodup) :
    (contGo names pool leftover).1.Nodup ∧
    ∀ v ∈ (contGo names pool leftover).1,
      v ∉ (contGo names pool leftover).2.2.map (fun e => e.1) := by
  induction names generalizing pool leftover with
  | nil => simp [contGo]
  | cons n ns ih =>
      cases hfind : pool.find? (fun c => containsName n c) with
      | some c =>
          rw [contGo_cons_found n ns pool leftover c hfind]
          have hcp : c ∈ pool := List.mem_of_find?_eq_some hfind
          have hnd2 : ((pool.filter (fun c' => c' != c)).map (fun e => e.1)).Nodup :=
            ((List.filter_sublist pool).map (fun e => e.1)).nodup hnd
          have ihr := ih (pool.filter (fun c' => c' != c))
            (leftover.filter (fun x => x != n)) hnd2
          have hcnotin : c.1 ∉ (contGo ns (pool.filter (fun c' => c' != c))
              (leftover.filter (fun x => x != n))).1 := by
            intro h
            exact id_not_in_filtered hnd hcp (contGo_vals_mem _ _ _ c.1 h)
          refine ⟨List.nodup_cons.mpr ⟨hcnotin, ihr.1⟩, ?_⟩
          intro v hv
          rcases List.mem_cons.mp hv with h | h
          · subst h
            intro hmem
            have hsub := (contGo_pool_sublist ns (pool.filter (fun c' => c' != c))
              (leftover.filter (fun x => x != n))).map (fun e => e.1)
            exact id_not_in_filtered hnd hcp (hsub.mem hmem)
          · exact ihr.2 v h
      | none =>
          rw [contGo_cons_none n ns pool leftover hfind]
          exact ih pool leftover hnd

lemma selectGo_snd_cases (pb : List (Char × Char)) (team : List Cand) (best : Nat × Nat) :
    (selectGo pb team best).2 = best.2 ∨ (selectGo pb team best).2 ∈ team.map (fun e => e.1) := by
  induction team generalizing best with
  | nil => exact Or.inl rfl
  | cons c cs ih =>
      rw [selectGo_cons, bigramStep_eq_max]
      split
      · rcases ih ((max (commonBigrams (generateBigrams c.2.1) pb)
            (commonBigrams (generateBigrams c.2.2) pb), c.1)) with h | h
        · exact Or.inr (by simp [h])
        · exact Or.inr (by simp [h])
      · rcases ih best with h | h
        · exact Or.inl h
        · exact Or.inr (by simp [h])

lemma compareBigrams_vals (ps : List String) (team : List Cand) :
    ∀ v ∈ compareBigrams ps team, v = 0 ∨ v ∈ team.map (fun e => e.1) := by
  induction ps generalizing team with
  | nil => simp [compareBigrams]
  | cons p ps ih =>
      intro v hv
      rw [compareBigrams_cons] at hv
      rcases List.mem_cons.mp hv with h | h
      · subst h
        rcases selectGo_snd_cases (generateBigrams p) team (0, 0) with h | h
        · exact Or.inl h
        · exact Or.inr h
      · rcases ih _ v h with h' | h'
        · exact Or.inl h'
        · exact Or.inr (((List.filter_sublist team).map (fun e => e.1)).mem h')

lemma compareBigrams_count_zero {v : Nat} (ps : List String) (team : List Cand)
    (hv : v ∉ team.map (fun e => e.1)) (hv0 : v ≠ 0) :
    (compareBigrams ps team).count v = 0 := by
  rw [List.count_eq_zero]
  intro hmem
  rcases compareBigrams_vals ps team v hmem with h | h
  · exact hv0 h
  · exact hv h

lemma compareBigrams_count_le_one {v : Nat} (ps : List String) (team : List Cand)
    (hv0 : v ≠ 0) (hnd : (team.map (fun e => e.1)).Nodup) :
    (compareBigrams ps team).count v ≤ 1 := by
  induction ps generalizing team with
  | nil => simp [compareBigrams]
  | cons p ps ih =>
      rw [compareBigrams_cons, List.count_cons]
      by_cases hbv : (selectGo (generateBigrams p) team (0, 0)).2 = v
      · have hzero : (compareBigrams ps
            (team.filter (fun c => c.1 != (selectGo (generateBigrams p) team (0, 0)).2))).count
              v = 0 := by
          refine compareBigrams_count_zero _ _ ?_ hv0
          intro hmem
          obtain ⟨e, he, heid⟩ := List.mem_map.mp hmem
          have h2 := (List.mem_filter.mp he).2
          rw [heid, hbv] at h2
          simp at h2
        rw [hzero]
        split <;> omega
      · have hne : ¬ v = (selectGo (generateBigrams p) team (0, 0)).2 := fun h => hbv h.symm
        have hnd2 : ((team.filter
            (fun c => c.1 != (selectGo (generateBigrams p) team (0, 0)).2)).map
              (fun e => e.1)).Nodup :=
          ((List.filter_sublist team).map (fun e => e.1)).nodup hnd
        have hbeq : ((selectGo (generateBigrams p) team (0, 0)).2 == v) = false :=
          beq_eq_false_iff_ne.mpr hbv
        rw [hbeq]
        simp only [Bool.false_eq_true, if_false, Nat.add_zero]
        exact ih _ hnd2

lemma sideValues_eq (lineup : List String) (pool : List Cand) :
    sideValues lineup pool =
      (contGo lineup pool lineup).1 ++
        compareBigrams (contGo lineup pool lineup).2.1 (contGo lineup pool lineup).2.2 := by
  unfold sideValues
  by_cases h : (contGo lineup pool lineup).2.1.isEmpty
  · rw [if_pos h]
    rw [List.isEmpty_iff] at h
    simp [h, compareBigrams]
  · rw [if_neg h]

/-- Claim C7: across the containment pass and the bigram pass of one lineup
side, a roster candidate's key is assigned to at most one slot: matched
candidates are dropped from the side's pool before the next slot is handled.
Hypotheses: candidate keys in the pool are pairwise distinct and positive
(both hold for the pools built by `insertPlayers`, whose keys are 1, 2, …). -/
theorem candidate_key_assigned_at_most_once (lineup : List String) (pool : List Cand)
    (c : Cand) (hc : c ∈ pool) (hnd : (pool.map (fun e => e.1)).Nodup)
    (hpos : ∀ e ∈ pool, 0 < e.1) :
    (sideValues lineup pool).count c.1 ≤ 1 := by
  rw [sideValues_eq, List.count_append]
  have hid0 : c.1 ≠ 0 := Nat.pos_iff_ne_zero.mp (hpos c hc)
  have hsub : ((contGo lineup pool lineup).2.2.map (fun e => e.1)).Nodup :=
    ((contGo_pool_sublist lineup pool lineup).map (fun e => e.1)).nodup hnd
  by_cases hin : c.1 ∈ (contGo lineup pool lineup).1
  · have h1 : (contGo lineup pool lineup).1.count c.1 ≤ 1 :=
      List.nodup_iff_count_le_one.mp (contGo_vals_nodup lineup pool lineup hnd).1 c.1
    have h2 : (compareBigrams (contGo lineup pool lineup).2.1
        (contGo lineup pool lineup).2.2).count c.1 = 0 :=
      compareBigrams_count_zero _ _ ((contGo_vals_nodup lineup pool lineup hnd).2 c.1 hin) hid0
    omega
  · have h1 : (contGo lineup pool lineup).1.count c.1 = 0 := List.count_eq_zero.mpr hin
    have h2 : (compareBigrams (contGo lineup pool lineup).2.1
        (contGo lineup pool lineup).2.2).count c.1 ≤ 1 :=
      compareBigrams_count_le_one _ _ hid0 hsub
    omega

/-- Witness for C7: on a two-name lineup where "Bob Cat" resolves by
containment and "Zq Vx" by bigram similarity, candidate key 9 is assigned to
at most one slot. -/
theorem candidate_key_assigned_at_most_once_witness :
    (sideValues ["Zq Vx", "Bob Cat"]
      [(5, "Bob Cat", "Bobby Catton"), (9, "Zq Vxw", "Zqq Vxwy")]).count 9 ≤ 1 :=
  candidate_key_assigned_at_most_once ["Zq Vx", "Bob Cat"]
    [(5, "Bob Cat", "Bobby Catton"), (9, "Zq Vxw", "Zqq Vxwy")]
    (9, "Zq Vxw", "Zqq Vxwy") (by decide) (by decide) (by decide)

lemma contGo_length (names : List String) (pool : List Cand) (pre : List String)
    (h : (pre ++ names).Nodup) :
    (contGo names pool (pre ++ names)).1.length +
      (contGo names pool (pre ++ names)).2.1.length = pre.length + names.length := by
  induction names generalizing pool pre with
  | nil => simp [contGo]
  | cons n ns ih =>
      have hdisj := List.nodup_append.mp h
      have hnpre : n ∉ pre := fun hmem => hdisj.2.2 hmem (by simp)
      have hnns : n ∉ ns := (List.nodup_cons.mp hdisj.2.1).1
      cases hfind : pool.find? (fun c => containsName n c) with
      | some c =>
          rw [contGo_cons_found n ns pool (pre ++ n :: ns) c hfind]
          have hleft : (pre ++ n :: ns).filter (fun x => x != n) = pre ++ ns := by
            rw [List.filter_append, List.filter_cons]
            simp only [bne_self_eq_false, Bool.false_eq_true, if_false]
            rw [List.filter_eq_self.mpr (fun x hx => by
                simpa [bne_iff_ne] using fun hh : x = n => hnpre (hh ▸ hx)),
              List.filter_eq_self.mpr (fun x hx => by
                simpa [bne_iff_ne] using fun hh : x = n => hnns (hh ▸ hx))]
          rw [hleft]
          have hnd2 : (pre ++ ns).Nodup := by
            refine ((List.Sublist.append (List.Sublist.refl pre)
              (List.sublist_cons_self n ns)).nodup) h
          have := ih (pool.filter (fun c' => c' != c)) pre hnd2
          simp only [List.length_cons]
          omega
      | none =>
          rw [contGo_cons_none n ns pool (pre ++ n :: ns) hfind]
          have hre : pre ++ n :: ns = (pre ++ [n]) ++ ns := by simp
          rw [hre] at h ⊢
          rw [ih pool (pre ++ [n]) h]
          simp only [List.length_append, List.length_cons, List.length_nil]
          omega

/-- Claim C8: for a side with pairwise-distinct names, `insertLineups` persists
exactly as many slot values as there are names (11 for a full side): the
containment-pass keys occupy the leading columns in input-slot order and the
bigram-pass values fill the trailing columns in leftover-name order.  The
closing concrete conjunct shows the resulting column permutation: with input
slots ["Zq Vx", "Bob Cat"], the first persisted column holds key 5, the
resolver of the second input slot. -/
theorem insertLineups_slot_layout (lineup : List String) (pool : List Cand)
    (hlen : lineup.length = 11) (hnd : lineup.Nodup) :
    (sideValues lineup pool).length = 11 ∧
    sideValues lineup pool =
      (contGo lineup pool lineup).1 ++
        compareBigrams (contGo lineup pool lineup).2.1 (contGo lineup pool lineup).2.2 ∧
    sideValues ["Zq Vx", "Bob Cat"]
      [(5, "Bob Cat", "Bobby Catton"), (9, "Zq Vxw", "Zqq Vxwy")] = [5, 9] := by
  refine ⟨?_, sideValues_eq lineup pool, by decide⟩
  rw [sideValues_eq, List.length_append, compareBigrams_length]
  have h := contGo_length lineup pool [] (by simpa using hnd)
  simp only [List.nil_append, List.length_nil] at h
  omega

/-- Witness for C8: an 11-name lineup against a one-candidate pool still
persists exactly 11 slot values (one containment key, ten bigram-pass values). -/
theorem insertLineups_slot_layout_witness :
    (sideValues ["Ha", "Hb", "Hc", "Hd", "He", "Hf", "Hg", "Hh", "Hi", "Hj", "Hk"]
      [(5, "Hb", "H B")]).length = 11 :=
  (insertLineups_slot_layout ["Ha", "Hb", "Hc", "Hd", "He", "Hf", "Hg", "Hh", "Hi", "Hj", "Hk"]
    [(5, "Hb", "H B")] (by decide) (by decide)).1

end PLIngest
